import Mathlib

/-!
Verification of the beam-sky convolution orchestration pipeline
(`toast/ops/conviqt.py`: `SimConviqt` and `SimWeightedConviqt`).

The Python operators are shallowly embedded as executable Lean functions:

* focal-plane tables become association lists of rows, a row being an
  association list from column names to unit-carrying rational cells
  (mirroring astropy's `colnames` / `row[col]` interface);
* numpy float arrays become `List ℝ`; in-place numpy operations
  (`+=`, slice assignment) become functions returning the new array,
  with numpy's broadcast and `None`-operand failure behaviour made
  explicit through an error monad (`Except PyErr`);
* Python exceptions (`RuntimeError`, `KeyError`, `NameError`,
  `TypeError`, `ValueError`) become the `PyErr` error type;
* the opaque libconviqt convolution engine and the quaternion-to-Euler
  conversion `qa.to_angles` (both external collaborators, out of the
  pipeline's scope) are parameters of the embedding, never fixed;
* MPI gather/broadcast in the detector scheduler is modelled by the
  root-side computation being delivered identically to every rank.
-/

/-- Python exceptions that the embedded code can raise. -/
inductive PyErr where
  | runtimeError (msg : String)
  | keyError (key : String)
  | nameError (missing : String)
  | typeError (msg : String)
  | valueError (msg : String)
deriving DecidableEq, Repr

/-- A table cell: a magnitude together with the factor converting its unit
to radians, so that astropy's `to_value(u.radian)` is `val * radPerUnit`.
Cells holding dimensionless quantities (such as `pol_leakage`) are read
through `val` alone. -/
structure Qty where
  val : ℚ
  radPerUnit : ℚ
deriving DecidableEq, Repr

/-- Astropy's `to_value(u.radian)` on a cell. -/
def Qty.toRad (q : Qty) : ℚ := q.val * q.radPerUnit

/-- One focal-plane row: column name to cell, in column order. -/
def FpRow : Type := List (String × Qty)

/-- The focal plane: detector name to row. -/
def Focalplane : Type := List (String × FpRow)

/-- The row's `colnames`. -/
def colKeys (props : FpRow) : List String := props.map Prod.fst

/-- Column access `props[col]`; `none` is astropy's `KeyError`. -/
def colLookup (props : FpRow) (col : String) : Option Qty := List.lookup col props

/-- Row access `focalplane[det]` (with `det in focalplane` as `isSome`). -/
def lookupRow (fp : Focalplane) (det : String) : Option FpRow := List.lookup det fp

/-- Embedding of `SimConviqt._get_psi_pol`: parse the polarization angle in
radians from the focal plane.  Faithful to the source, the `psi_pol`
branch also reads the `pol_angle` column. -/
def get_psi_pol (fp : Focalplane) (det : String) : Except PyErr ℚ :=
  match lookupRow fp det with
  | none => .error (.runtimeError "focalplane does not include det")
  | some props =>
    if "psi_pol" ∈ colKeys props then
      match colLookup props "pol_angle" with
      | some q => .ok q.toRad
      | none => .error (.keyError "pol_angle")
    else if "pol_angle" ∈ colKeys props then
      -- the source emits a DeprecationWarning here; warnings carry no value
      match colLookup props "pol_angle" with
      | some q => .ok q.toRad
      | none => .error (.keyError "pol_angle")
    else .error (.runtimeError "focalplane det does not include psi_pol")

/-- Embedding of `SimConviqt._get_psi_uv`.  The source tests the column name
`psi_uv_deg`, reads the column `psi_uv`, and then executes `return psipol`
where `psipol` is an undefined name, so the successful branch raises
`NameError` and the function can never return a value. -/
def get_psi_uv (fp : Focalplane) (det : String) : Except PyErr ℚ :=
  match lookupRow fp det with
  | none => .error (.runtimeError "focalplane does not include det")
  | some props =>
    if "psi_uv_deg" ∈ colKeys props then
      match colLookup props "psi_uv" with
      | some _ => .error (.nameError "psipol")
      | none => .error (.keyError "psi_uv")
    else .error (.runtimeError "focalplane det does not include psi_uv")

/-- Embedding of `SimConviqt._get_epsilon`: polarization leakage from the
focal plane, zero when the `pol_leakage` column is absent. -/
def get_epsilon (fp : Focalplane) (det : String) : Except PyErr ℚ :=
  match lookupRow fp det with
  | none => .error (.runtimeError "focalplane does not include det")
  | some props =>
    match colLookup props "pol_leakage" with
    | some q => .ok q.val
    | none => .ok 0

/-- A detector-frame attitude quaternion, components ordered (x, y, z, w)
as in the source's numpy arrays. -/
structure Quat where
  x : ℝ
  y : ℝ
  z : ℝ
  w : ℝ

/-- The fixed null orientation `nullquat = [0, 0, 0, 1]` substituted for
flagged samples. -/
def nullquat : Quat := ⟨0, 0, 0, 1⟩

/-- The operator's configuration traits that the embedded methods read.
The flag masks are validated non-negative by the operator, hence `ℕ`.
The `shared_flags` / `det_flags` / `hwp_angle` trait strings only matter
through which streams they select, so they are modelled by presence
booleans and the views carry the selected streams directly. -/
structure Config where
  applyFlags : Bool
  hasSharedFlags : Bool
  sharedFlagMask : ℕ
  hasDetFlags : Bool
  detFlagMask : ℕ
  dxx : Bool
  hasHwp : Bool
  calibrate : Bool

/-- One view (time interval) of an observation, as seen by one call:
the selected shared-flag stream, and per-detector flag, quaternion and
`det_data` streams, plus the HWP angle stream. -/
structure View where
  sharedFlags : List ℕ
  detFlags : String → List ℕ
  quats : String → List Quat
  hwpAngle : List ℝ
  detData : String → List ℝ

/-- One local observation: its local detector names, its telescope's
focal plane, and its views in order. -/
structure Obs where
  localDets : List String
  focalplane : Focalplane
  views : List View

/-- The combined per-sample flag mask of `get_pointing` (lines 399-411):
`None` when flags are not applied or neither stream is configured,
otherwise shared flags ANDed with the shared mask, detector flags ANDed
with the detector mask, and the two ORed together when both exist. -/
def combinedFlags (cfg : Config) (det : String) (v : View) : Option (List ℕ) :=
  if cfg.applyFlags then
    let flags : Option (List ℕ) :=
      if cfg.hasSharedFlags then some (v.sharedFlags.map (· &&& cfg.sharedFlagMask))
      else none
    if cfg.hasDetFlags then
      let detflags := (v.detFlags det).map (· &&& cfg.detFlagMask)
      match flags with
      | some fl => some (List.zipWith (· ||| ·) fl detflags)
      | none => some detflags
    else flags
  else none

/-- The quaternion stream after flag nulling: `quats[flags != 0] = nullquat`. -/
def flagQuats (cfg : Config) (det : String) (v : View) : List Quat :=
  match combinedFlags cfg det v with
  | some fl => List.zipWith (fun q f => if f ≠ 0 then nullquat else q) (v.quats det) fl
  | none => v.quats det

/-- The effective polarization angle of `get_pointing` (lines 425-429):
`psi_pol`, plus `psi_uv` when the beam frame is Dxx. -/
def psiPolEff (cfg : Config) (fp : Focalplane) (det : String) : Except PyErr ℝ := do
  let p ← get_psi_pol fp det
  if cfg.dxx then
    let uv ← get_psi_uv fp det
    pure ((p : ℝ) + (uv : ℝ))
  else
    pure (p : ℝ)

/-- The body of `get_pointing`'s view loop, for one view: null flagged
quaternions, convert to angles through the external `toAngles`
(`qa.to_angles`), subtract the effective polarization angle from ψ, and
build the ψ_pol array (constant, plus twice the HWP angle when a HWP
stream is configured). -/
def pointView (toAngles : Quat → ℝ × ℝ × ℝ) (cfg : Config) (fp : Focalplane)
    (det : String) (v : View) : Except PyErr (List ℝ × List ℝ × List ℝ × List ℝ) := do
  let angs := (flagQuats cfg det v).map toAngles
  let e ← psiPolEff cfg fp det
  let θ := angs.map (fun a => a.1)
  let φ := angs.map (fun a => a.2.1)
  let ψ := angs.map (fun a => a.2.2 - e)
  let base := List.replicate ψ.length e
  let ψpol := if cfg.hasHwp then List.zipWith (fun p h => p + 2 * h) base v.hwpAngle
              else base
  pure (θ, φ, ψ, ψpol)

/-- Concatenation of `pointView` over an observation's views, in order. -/
def pointViews (toAngles : Quat → ℝ × ℝ × ℝ) (cfg : Config) (fp : Focalplane)
    (det : String) : List View → Except PyErr (List ℝ × List ℝ × List ℝ × List ℝ)
  | [] => .ok ([], [], [], [])
  | v :: vs => do
    let (θ, φ, ψ, ψp) ← pointView toAngles cfg fp det v
    let (θs, φs, ψs, ψps) ← pointViews toAngles cfg fp det vs
    pure (θ ++ θs, φ ++ φs, ψ ++ ψs, ψp ++ ψps)

/-- Embedding of `SimConviqt.get_pointing`: the four concatenated angle
arrays for a detector over every local observation that hosts it. -/
def get_pointing (toAngles : Quat → ℝ × ℝ × ℝ) (cfg : Config) (det : String) :
    List Obs → Except PyErr (List ℝ × List ℝ × List ℝ × List ℝ)
  | [] => .ok ([], [], [], [])
  | obs :: rest =>
    if det ∈ obs.localDets then do
      let (θ, φ, ψ, ψp) ← pointViews toAngles cfg obs.focalplane det obs.views
      let (θs, φs, ψs, ψps) ← get_pointing toAngles cfg det rest
      pure (θ ++ θs, φ ++ φs, ψ ++ ψs, ψp ++ ψps)
    else get_pointing toAngles cfg det rest

/-- Row-wise zip of three equal-length streams, truncating at the shortest
as numpy column assignment would be preceded by a length check. -/
def zip3R : List ℝ → List ℝ → List ℝ → List (ℝ × ℝ × ℝ)
  | a :: as', b :: bs, c :: cs => (a, b, c) :: zip3R as' bs cs
  | _, _, _ => []

/-- Embedding of `SimConviqt.get_buffer`: pack the angles into the conviqt
pointing buffer, columns ordered (φ, θ, ψ) as in the source. -/
def get_buffer (θ φ ψ : List ℝ) : List (ℝ × ℝ × ℝ) := zip3R φ θ ψ

/-- Embedding of `SimConviqt.convolve`'s result extraction: the engine (an
external collaborator, modelled as a function from the pointing buffer to
the signal column) fills the buffer, and the signal is extracted only when
the buffer has rows; otherwise the method returns Python's `None`. -/
def convolve (engine : List (ℝ × ℝ × ℝ) → List ℝ) (pnt : List (ℝ × ℝ × ℝ)) :
    Option (List ℝ) :=
  if 0 < pnt.length then some (engine pnt) else none

/-- A Python value holding either `None` or a numpy 1-d array. -/
inductive NpVal where
  | pyNone
  | arr (xs : List ℝ)

/-- The `convolve` result as the Python value it is. -/
def NpVal.ofOption : Option (List ℝ) → NpVal
  | none => .pyNone
  | some xs => .arr xs

/-- Numpy semantics of `ws * o` for a float array `ws` and an operand that
may be `None`: against `None`, numpy forms an object-dtype result and
applies Python's `*` per element, so the empty array succeeds (empty
object array) and any element raises `TypeError`; against an array, the
shapes must match or one side must have length one (broadcast), else
`ValueError`. -/
def npMul (ws : List ℝ) (o : NpVal) : Except PyErr NpVal :=
  match o with
  | .pyNone =>
    if ws.isEmpty then .ok (.arr [])
    else .error (.typeError "unsupported operand float and NoneType")
  | .arr ys =>
    if ws.length = ys.length then .ok (.arr (List.zipWith (· * ·) ws ys))
    else if ys.length = 1 then .ok (.arr (ws.map (· * ys.headD 0)))
    else if ws.length = 1 then .ok (.arr (ys.map (ws.headD 0 * ·)))
    else .error (.valueError "operands could not be broadcast")

/-- Numpy semantics of `c += t` where either side may be `None`: a `None`
side forms an object-dtype addition that succeeds only on empty arrays
(zero element-wise `+` applications), and array `+=` array requires the
right side's shape to match or broadcast (length one) into the left. -/
def npAddAssign (c t : NpVal) : Except PyErr NpVal :=
  match c, t with
  | .arr xs, .arr ys =>
    if xs.length = ys.length then .ok (.arr (List.zipWith (· + ·) xs ys))
    else if ys.length = 1 then .ok (.arr (xs.map (· + ys.headD 0)))
    else .error (.valueError "non-broadcastable output operand")
  | .pyNone, .arr ys =>
    if ys.isEmpty then .ok (.arr []) else .error (.typeError "NoneType plus float")
  | .arr xs, .pyNone =>
    if xs.isEmpty then .ok (.arr []) else .error (.typeError "float plus NoneType")
  | .pyNone, .pyNone => .error (.typeError "NoneType plus NoneType")

/-- Embedding of `SimWeightedConviqt._exec`'s recombination (lines 624-640):
start from the I-beam convolution, add `cos(2 ψ_pol)` times the Q-beam
convolution, then add `sin(2 ψ_pol)` times the U-beam convolution, with
the numpy `None`/broadcast semantics above. -/
noncomputable def weightedConv (convI convQ convU : Option (List ℝ)) (ψpol : List ℝ) :
    Except PyErr NpVal := do
  let c := NpVal.ofOption convI
  let t1 ← npMul (ψpol.map (fun p => Real.cos (2 * p))) (NpVal.ofOption convQ)
  let c ← npAddAssign c t1
  let t2 ← npMul (ψpol.map (fun p => Real.sin (2 * p))) (NpVal.ofOption convU)
  let c ← npAddAssign c t2
  pure c

/-- In-place numpy slice scaling `xs[off : off + n] *= f`: the slice is
clipped to the array, every element in it is scaled, the rest is kept. -/
def mulSlice (xs : List ℝ) (off n : ℕ) (f : ℝ) : List ℝ :=
  xs.take off ++ ((xs.drop off).take n).map (· * f) ++ xs.drop (off + n)

/-- The view loop of `calibrate_signal` for one observation: scale each
view's slice of the buffer and advance the offset by the view's
`det_data` sample count. -/
def calibViews (f : ℝ) (det : String) : List View → List ℝ → ℕ → List ℝ × ℕ
  | [], xs, off => (xs, off)
  | v :: vs, xs, off =>
    let n := (v.detData det).length
    calibViews f det vs (mulSlice xs off n f) (off + n)

/-- The observation loop of `calibrate_signal`: per hosting observation,
read epsilon from its focal plane and scale that observation's views.
Iterating views with the buffer still `None` is Python's `TypeError`
(`None` does not support slice assignment). -/
noncomputable def calibrateGo (cfg : Config) (det : String) :
    List Obs → NpVal → ℕ → Except PyErr (NpVal × ℕ)
  | [], c, off => .ok (c, off)
  | obs :: rest, c, off =>
    if det ∈ obs.localDets then
      match get_epsilon obs.focalplane det with
      | .error e => .error e
      | .ok ε =>
        match c, obs.views with
        | _, [] => calibrateGo cfg det rest c off
        | .pyNone, _ :: _ => .error (.typeError "NoneType does not support slices")
        | .arr xs, vs =>
          let r := calibViews (2 / (1 + (ε : ℝ))) det vs xs off
          calibrateGo cfg det rest (.arr r.1) r.2
    else calibrateGo cfg det rest c off

/-- Embedding of `SimConviqt.calibrate_signal`: unchanged when calibration
is disabled or the beam is normalized, otherwise every hosting
observation's views are scaled by `2 / (1 + epsilon)` in traversal
order. -/
noncomputable def calibrate_signal (cfg : Config) (obss : List Obs) (det : String)
    (normalized : Bool) (c : NpVal) : Except PyErr NpVal :=
  if !cfg.calibrate || normalized then .ok c
  else (calibrateGo cfg det obss c 0).map (fun r => r.1)

/-- The detector's `det_data` storage segments in the traversal order of
`save` and `calibrate_signal`: hosting observations in order, views in
order. -/
def detSegments (det : String) (obss : List Obs) : List (List ℝ) :=
  (obss.filter (fun obs => det ∈ obs.localDets)).flatMap
    (fun obs => obs.views.map (fun v => v.detData det))

/-- The view loop of `save`: `view[det] += convolved_data[off : off + n]`
per storage segment, the slice clipped by numpy, the in-place addition
succeeding exactly when the slice's length matches the segment's or is
one (broadcast); the offset advances by the segment length either way. -/
def saveSegs : List (List ℝ) → List ℝ → ℕ → Except PyErr (List (List ℝ))
  | [], _, _ => .ok []
  | s :: rest, buf, off =>
    let n := s.length
    let slice := (buf.drop off).take n
    if slice.length = n then do
      let rest' ← saveSegs rest buf (off + n)
      pure (List.zipWith (· + ·) s slice :: rest')
    else if slice.length = 1 then do
      let rest' ← saveSegs rest buf (off + n)
      pure (s.map (· + slice.headD 0) :: rest')
    else .error (.valueError "operands could not be broadcast")

/-- Embedding of `SimConviqt.save`: add the flat buffer into the
detector's storage segments in traversal order, returning the updated
segments.  Slicing a `None` buffer inside a non-empty traversal is
Python's `TypeError`. -/
def save (det : String) (obss : List Obs) (c : NpVal) :
    Except PyErr (List (List ℝ)) :=
  match c, detSegments det obss with
  | _, [] => .ok []
  | .pyNone, _ :: _ => .error (.typeError "NoneType is not subscriptable")
  | .arr xs, segs => saveSegs segs xs 0

/-- The per-detector section of `SimConviqt._exec`: pointing, buffer
packing, one convolution, calibration, accumulation.  Returns the
detector's updated storage segments. -/
noncomputable def staticPipeline (toAngles : Quat → ℝ × ℝ × ℝ)
    (engine : List (ℝ × ℝ × ℝ) → List ℝ) (cfg : Config) (obss : List Obs)
    (det : String) (normalized : Bool) : Except PyErr (List (List ℝ)) := do
  let (θ, φ, ψ, _) ← get_pointing toAngles cfg det obss
  let conv := convolve engine (get_buffer θ φ ψ)
  let c ← calibrate_signal cfg obss det normalized (NpVal.ofOption conv)
  save det obss c

/-- The per-detector section of `SimWeightedConviqt._exec`: pointing, three
convolutions of the same pointing against the I/Q/U axis beams, weighted
recombination, calibration against the I beam, accumulation. -/
noncomputable def weightedPipeline (toAngles : Quat → ℝ × ℝ × ℝ)
    (engI engQ engU : List (ℝ × ℝ × ℝ) → List ℝ) (cfg : Config)
    (obss : List Obs) (det : String) (normalizedI : Bool) :
    Except PyErr (List (List ℝ)) := do
  let (θ, φ, ψ, ψp) ← get_pointing toAngles cfg det obss
  let cI := convolve engI (get_buffer θ φ ψ)
  let cQ := convolve engQ (get_buffer θ φ ψ)
  let cU := convolve engU (get_buffer θ φ ψ)
  let c ← weightedConv cI cQ cU ψp
  let c ← calibrate_signal cfg obss det normalizedI c
  save det obss c

/-- The union of gathered per-rank detector-name sets as the root computes
it in `_get_all_detectors`: the root starts from its own set and folds in
every gathered set (its own included, since gather includes the root). -/
def rootUnion (ranks : List (Finset String)) : Finset String :=
  ranks.foldl (· ∪ ·) (ranks.headD ∅)

/-- Embedding of `SimConviqt._get_all_detectors`' root computation: union
the gathered sets and sort the result. -/
def getAllDets (ranks : List (Finset String)) : List String :=
  Finset.sort (· ≤ ·) (rootUnion ranks)

/-- What a rank receives from the root's broadcast: the root's list,
identical at every rank. -/
def getAllDetsAtRank (ranks : List (Finset String)) (_rank : ℕ) : List String :=
  getAllDets ranks

/-- The union of a list of finite sets from the empty set, used to state
partition independence of the scheduler. -/
def unionAll (ranks : List (Finset String)) : Finset String :=
  ranks.foldl (· ∪ ·) ∅

/-! ## Helper lemmas -/

lemma mem_colKeys_of_colLookup {props : FpRow} {c : String} {q : Qty}
    (h : colLookup props c = some q) : c ∈ colKeys props := by
  have hs : (List.lookup c props).isSome := by simp [colLookup] at h; simp [h]
  obtain ⟨p, hp, he⟩ := List.lookup_isSome_iff.mp hs
  exact List.mem_map.mpr ⟨p, hp, (beq_iff_eq.mp he).symm⟩

lemma mem_foldl_union (l : List (Finset String)) (s : Finset String) (x : String) :
    x ∈ l.foldl (· ∪ ·) s ↔ x ∈ s ∨ ∃ t ∈ l, x ∈ t := by
  induction l generalizing s with
  | nil => simp
  | cons a l ih =>
    simp only [List.foldl_cons, ih, Finset.mem_union, List.mem_cons]
    constructor
    · rintro (( h | h ) | ⟨t, ht, hx⟩)
      · exact Or.inl h
      · exact Or.inr ⟨a, Or.inl rfl, h⟩
      · exact Or.inr ⟨t, Or.inr ht, hx⟩
    · rintro (h | ⟨t, (rfl | ht), hx⟩)
      · exact Or.inl (Or.inl h)
      · exact Or.inl (Or.inr hx)
      · exact Or.inr ⟨t, ht, hx⟩

lemma rootUnion_eq_unionAll (ranks : List (Finset String)) :
    rootUnion ranks = unionAll ranks := by
  cases ranks with
  | nil => rfl
  | cons a l =>
    ext x
    simp only [rootUnion, unionAll, List.headD_cons, List.foldl_cons,
      mem_foldl_union, Finset.mem_union, Finset.not_mem_empty]
    tauto

/-! ## C7: the distributed detector scheduler -/

/-- C7 (confirmed): for any partition of a fixed detector set across any
number of processes, every rank receives the identical list, equal to the
lexicographically sorted union of the per-rank detector-name sets, and the
result is independent of how the detectors are partitioned. -/
theorem c7_scheduler_deterministic :
    ∀ (ranks ranks' : List (Finset String)) (r r' : ℕ) (D : Finset String),
      unionAll ranks = D → unionAll ranks' = D →
      getAllDetsAtRank ranks r = Finset.sort (· ≤ ·) D ∧
      getAllDetsAtRank ranks r = getAllDetsAtRank ranks' r' := by
  intro ranks ranks' r r' D h h'
  have e : getAllDetsAtRank ranks r = Finset.sort (· ≤ ·) D := by
    simp [getAllDetsAtRank, getAllDets, rootUnion_eq_unionAll, h]
  have e' : getAllDetsAtRank ranks' r' = Finset.sort (· ≤ ·) D := by
    simp [getAllDetsAtRank, getAllDets, rootUnion_eq_unionAll, h']
  exact ⟨e, e.trans e'.symm⟩

/-- Witness for C7 at a concrete two-rank partition of two detectors. -/
theorem c7_scheduler_deterministic_witness :
    getAllDetsAtRank [{"b"}, {"a"}] 0 =
      Finset.sort (· ≤ ·) (unionAll [{"b"}, {"a"}]) ∧
    getAllDetsAtRank [{"b"}, {"a"}] 0 = getAllDetsAtRank [{"a"}, {"b"}] 1 :=
  c7_scheduler_deterministic [{"b"}, {"a"}] [{"a"}, {"b"}] 0 1
    (unionAll [{"b"}, {"a"}]) rfl (by decide)

/-! ## C10: the psi_pol focal-plane parser -/

/-- C10 fails as stated: with `psi_pol` among the column names but no
`pol_angle` column, `_get_psi_pol` raises `KeyError`, neither returning a
value nor raising `RuntimeError`. -/
theorem c10_counterexample :
    "psi_pol" ∈ colKeys [("psi_pol", Qty.mk 1 1)] ∧
    get_psi_pol [("det0", [("psi_pol", Qty.mk 1 1)])] "det0" =
      .error (.keyError "pol_angle") := by
  exact ⟨by decide, rfl⟩

/-- C10 amended: the value is always read from the `pol_angle` column (in
radians), even when `psi_pol` is the column that selected the branch; when
`psi_pol` is a column but `pol_angle` is not, the access raises `KeyError`;
`RuntimeError` is raised exactly when the detector is absent or neither
column name is present. -/
theorem c10_psi_pol_amended :
    ∀ (fp : Focalplane) (det : String),
      (lookupRow fp det = none →
        get_psi_pol fp det = .error (.runtimeError "focalplane does not include det")) ∧
      (∀ props, lookupRow fp det = some props →
        (∀ q, colLookup props "pol_angle" = some q →
          get_psi_pol fp det = .ok q.toRad) ∧
        ("psi_pol" ∈ colKeys props → colLookup props "pol_angle" = none →
          get_psi_pol fp det = .error (.keyError "pol_angle")) ∧
        ("psi_pol" ∉ colKeys props → "pol_angle" ∉ colKeys props →
          get_psi_pol fp det =
            .error (.runtimeError "focalplane det does not include psi_pol"))) := by
  intro fp det
  constructor
  · intro h; simp [get_psi_pol, h]
  · intro props h
    refine ⟨?_, ?_, ?_⟩
    · intro q hq
      by_cases hm : "psi_pol" ∈ colKeys props
      · simp [get_psi_pol, h, hm, hq]
      · have hp : "pol_angle" ∈ colKeys props := mem_colKeys_of_colLookup hq
        simp [get_psi_pol, h, hm, hp, hq]
    · intro hm hq; simp [get_psi_pol, h, hm, hq]
    · intro h1 h2; simp [get_psi_pol, h, h1, h2]

/-! ## C3: the effective polarization angle and the psi_uv slip -/

/-- A focal plane whose row carries every angle column, including
`psi_uv_deg` and `psi_uv`, all zero radians. -/
def fpC3 : Focalplane :=
  [("det0", [("psi_pol", Qty.mk 0 1), ("pol_angle", Qty.mk 0 1),
             ("psi_uv_deg", Qty.mk 0 1), ("psi_uv", Qty.mk 0 1)])]

/-- A configuration with `dxx = true` (the operator's default). -/
def cfgDxx : Config :=
  { applyFlags := false, hasSharedFlags := false, sharedFlagMask := 0,
    hasDetFlags := false, detFlagMask := 0, dxx := true, hasHwp := false,
    calibrate := true }

/-- C3 (code bug): with `dxx = false` the effective polarization angle is
exactly `psi_pol`; but `_get_psi_uv` can never return a value (its return
statement names the undefined `psipol`), so with `dxx = true` the claimed
`psi_pol + psi_uv` is never produced — on a fully populated focal plane the
angle resolution raises `NameError` instead. -/
theorem c3_dxx_code_bug :
    (∀ (cfg : Config) (fp : Focalplane) (det : String) (p : ℚ),
      cfg.dxx = false → get_psi_pol fp det = .ok p →
      psiPolEff cfg fp det = .ok (p : ℝ)) ∧
    (∀ (fp : Focalplane) (det : String) (q : ℚ), get_psi_uv fp det ≠ .ok q) ∧
    psiPolEff cfgDxx fpC3 "det0" = .error (.nameError "psipol") := by
  refine ⟨?_, ?_, ?_⟩
  · intro cfg fp det p hdxx hp
    simp [psiPolEff, hp, hdxx]
  · intro fp det q h
    simp only [get_psi_uv] at h
    split at h
    · exact Except.noConfusion h
    · split at h
      · split at h <;> exact Except.noConfusion h
      · exact Except.noConfusion h
  · rfl

/-! ## C5 and C6: the view/interval accumulator -/

/-- Whether an embedded Python computation completed without raising. -/
def okE {α : Type _} : Except PyErr α → Bool
  | .ok _ => true
  | .error _ => false

/-- The updated storage segments `save` produces when every slice is fully
available: each segment plus its chunk of the buffer, in traversal order. -/
def addChunks : List (List ℝ) → List ℝ → ℕ → List (List ℝ)
  | [], _, _ => []
  | s :: rest, buf, off =>
    List.zipWith (· + ·) s ((buf.drop off).take s.length) ::
      addChunks rest buf (off + s.length)

lemma saveSegs_ok (segs : List (List ℝ)) (buf : List ℝ) (off : ℕ)
    (h : off + (segs.map List.length).sum ≤ buf.length) :
    saveSegs segs buf off = .ok (addChunks segs buf off) := by
  induction segs generalizing off with
  | nil => rfl
  | cons s rest ih =>
    have hn : ((buf.drop off).take s.length).length = s.length := by
      simp only [List.length_take, List.length_drop]
      simp only [List.map_cons, List.sum_cons] at h
      omega
    have hrest : off + s.length + (rest.map List.length).sum ≤ buf.length := by
      simp only [List.map_cons, List.sum_cons] at h
      omega
    simp [saveSegs, addChunks, hn, ih (off + s.length) hrest]

lemma zipWith_add_replicate_zero (ys : List ℝ) :
    List.zipWith (· + ·) (List.replicate ys.length (0 : ℝ)) ys = ys := by
  induction ys with
  | nil => rfl
  | cons y ys ih => simp [List.replicate_succ, ih]

lemma addChunks_flatten (segs : List (List ℝ)) (buf : List ℝ) (off : ℕ)
    (h : off + (segs.map List.length).sum = buf.length)
    (hz : ∀ s ∈ segs, s = List.replicate s.length 0) :
    (addChunks segs buf off).flatten = buf.drop off := by
  induction segs generalizing off with
  | nil =>
    simp only [List.map_nil, List.sum_nil, Nat.add_zero] at h
    simp [addChunks, (List.drop_eq_nil_iff).mpr (le_of_eq h.symm)]
  | cons s rest ih =>
    have hn : ((buf.drop off).take s.length).length = s.length := by
      simp only [List.length_take, List.length_drop]
      simp only [List.map_cons, List.sum_cons] at h
      omega
    have hs := hz s (by simp)
    have hzgen : ∀ ys : List ℝ, ys.length = s.length →
        List.zipWith (· + ·) s ys = ys := by
      intro ys hy
      rw [hs, ← hy]
      exact zipWith_add_replicate_zero ys
    have hzip : List.zipWith (· + ·) s ((buf.drop off).take s.length) =
        (buf.drop off).take s.length := hzgen _ hn
    have hrest : off + s.length + (rest.map List.length).sum = buf.length := by
      simp only [List.map_cons, List.sum_cons] at h
      omega
    have ihr := ih (off + s.length) hrest (fun t ht => hz t (by simp [ht]))
    simp only [addChunks, List.flatten_cons, hzip, ihr]
    rw [← List.drop_drop, List.take_append_drop]

lemma addChunks_lengths (segs : List (List ℝ)) (buf : List ℝ) (off : ℕ)
    (h : off + (segs.map List.length).sum ≤ buf.length) :
    (addChunks segs buf off).map List.length = segs.map List.length := by
  induction segs generalizing off with
  | nil => rfl
  | cons s rest ih =>
    have hn : ((buf.drop off).take s.length).length = s.length := by
      simp only [List.length_take, List.length_drop]
      simp only [List.map_cons, List.sum_cons] at h
      omega
    have hrest : off + s.length + (rest.map List.length).sum ≤ buf.length := by
      simp only [List.map_cons, List.sum_cons] at h
      omega
    simp [addChunks, List.length_zipWith, hn, ih (off + s.length) hrest]

/-- C5 (confirmed): `save` consumes the flat buffer by addition over the
storage segments in traversal order, each segment receiving the chunk at
its running offset; on zero-initialized storage of matching total length
the updated segments concatenate back to exactly the buffer, with each
segment's length (hence each sample's originating view) preserved. -/
theorem c5_save_roundtrip :
    ∀ (segs : List (List ℝ)) (buf : List ℝ),
      buf.length = (segs.map List.length).sum →
      saveSegs segs buf 0 = .ok (addChunks segs buf 0) ∧
      ((∀ s ∈ segs, s = List.replicate s.length 0) →
        (addChunks segs buf 0).flatten = buf ∧
        (addChunks segs buf 0).map List.length = segs.map List.length) := by
  intro segs buf h
  refine ⟨saveSegs_ok segs buf 0 (by omega), fun hz => ⟨?_, ?_⟩⟩
  · simpa using addChunks_flatten segs buf 0 (by omega) hz
  · exact addChunks_lengths segs buf 0 (by omega)

/-- Witness for C5 at a concrete two-view storage and matching buffer. -/
theorem c5_save_roundtrip_witness :
    saveSegs [[0], [0, 0]] [1, 2, 3] 0 = .ok (addChunks [[0], [0, 0]] [1, 2, 3] 0) ∧
    ((∀ s ∈ [[(0 : ℝ)], [0, 0]], s = List.replicate s.length 0) →
      (addChunks [[0], [0, 0]] [1, 2, 3] 0).flatten = [1, 2, 3] ∧
      (addChunks [[0], [0, 0]] [1, 2, 3] 0).map List.length =
        [[(0 : ℝ)], [0, 0]].map List.length) :=
  c5_save_roundtrip [[0], [0, 0]] [1, 2, 3] (by decide)

/-- A single one-view observation whose storage holds two zero samples. -/
def viewC6 : View :=
  { sharedFlags := [], detFlags := fun _ => [], quats := fun _ => [],
    hwpAngle := [], detData := fun _ => [0, 0] }

/-- The observation wrapping `viewC6` for detector `det0`. -/
def obsC6 : Obs := { localDets := ["det0"], focalplane := [], views := [viewC6] }

/-- C6 fails as stated: a buffer of 3 samples against a storage traversal
of 2 samples is not rejected — `save` completes, silently ignoring the
residual tail of the buffer. -/
theorem c6_counterexample :
    (detSegments "det0" [obsC6]).map List.length = [2] ∧
    okE (save "det0" [obsC6] (.arr [1, 2, 3])) = true :=
  ⟨rfl, rfl⟩

/-- C6 amended: `save` performs no explicit length validation.  A buffer at
least as long as the total view length always completes (any residual is
silently ignored); a buffer too short for a view's demand fails with
numpy's broadcast `ValueError` — except that a remaining slice of exactly
one sample broadcasts and completes. -/
theorem c6_save_no_length_check :
    (∀ (segs : List (List ℝ)) (buf : List ℝ),
      (segs.map List.length).sum ≤ buf.length → okE (saveSegs segs buf 0) = true) ∧
    (∀ (s : List ℝ) (buf : List ℝ), buf.length < s.length → buf.length ≠ 1 →
      saveSegs [s] buf 0 = .error (.valueError "operands could not be broadcast")) ∧
    (∀ (s : List ℝ) (buf : List ℝ), buf.length = 1 →
      okE (saveSegs [s] buf 0) = true) := by
  refine ⟨?_, ?_, ?_⟩
  · intro segs buf h
    rw [saveSegs_ok segs buf 0 (by omega)]
    rfl
  · intro s buf hlt hne
    have h1 : ((buf.drop 0).take s.length).length = buf.length := by
      simp only [List.length_take, List.length_drop]
      omega
    simp only [saveSegs, h1]
    rw [if_neg (by omega), if_neg (by omega)]
  · intro s buf h1
    have hsl : ((buf.drop 0).take s.length).length = min s.length 1 := by
      simp [List.length_take, h1]
    by_cases he : s.length ≤ 1
    · have heq : ((buf.drop 0).take s.length).length = s.length := by omega
      simp only [saveSegs]
      rw [if_pos heq]
      rfl
    · have h2 : ((buf.drop 0).take s.length).length = 1 := by omega
      simp only [saveSegs]
      rw [if_neg (by rw [h2]; omega), if_pos h2]
      rfl

/-! ## C2: the calibration normalizer -/

/-- Total `det_data` sample count of a view list for a detector. -/
def sumN (det : String) (vs : List View) : ℕ :=
  (vs.map (fun v => (v.detData det).length)).sum

lemma mulSlice_length (xs : List ℝ) (off n : ℕ) (f : ℝ) (h : off + n ≤ xs.length) :
    (mulSlice xs off n f).length = xs.length := by
  simp only [mulSlice, List.length_append, List.length_map, List.length_take,
    List.length_drop]
  omega

lemma mulSlice_take (xs : List ℝ) (off n : ℕ) (f : ℝ) (h : off + n ≤ xs.length) :
    (mulSlice xs off n f).take (off + n) =
      xs.take off ++ ((xs.drop off).take n).map (· * f) := by
  simp only [mulSlice]
  refine List.take_left' ?_
  simp only [List.length_append, List.length_map, List.length_take, List.length_drop]
  omega

lemma mulSlice_drop (xs : List ℝ) (off n : ℕ) (f : ℝ) (h : off + n ≤ xs.length) :
    (mulSlice xs off n f).drop (off + n) = xs.drop (off + n) := by
  simp only [mulSlice]
  refine List.drop_left' ?_
  simp only [List.length_append, List.length_map, List.length_take, List.length_drop]
  omega

lemma calibViews_snd (f : ℝ) (det : String) (vs : List View) (xs : List ℝ) (off : ℕ) :
    (calibViews f det vs xs off).2 = off + sumN det vs := by
  induction vs generalizing xs off with
  | nil => simp [calibViews, sumN]
  | cons v vs ih =>
    simp only [calibViews, ih, sumN, List.map_cons, List.sum_cons]
    omega

lemma calibViews_total (f : ℝ) (det : String) (vs : List View) (xs : List ℝ)
    (off : ℕ) (h : off + sumN det vs = xs.length) :
    (calibViews f det vs xs off).1 = xs.take off ++ (xs.drop off).map (· * f) := by
  induction vs generalizing xs off with
  | nil =>
    simp only [sumN, List.map_nil, List.sum_nil, Nat.add_zero] at h
    simp [calibViews, h, List.take_of_length_le (le_of_eq h.symm),
      List.drop_eq_nil_iff.mpr (le_of_eq h.symm)]
  | cons v vs ih =>
    have hsum : off + (v.detData det).length + sumN det vs = xs.length := by
      simp only [sumN, List.map_cons, List.sum_cons] at h ⊢
      omega
    have hle : off + (v.detData det).length ≤ xs.length := by omega
    have hlen := mulSlice_length xs off (v.detData det).length f hle
    have ihr := ih (mulSlice xs off (v.detData det).length f)
      (off + (v.detData det).length) (by rw [hlen]; exact hsum)
    simp only [calibViews, ihr, mulSlice_take xs _ _ f hle, mulSlice_drop xs _ _ f hle]
    have hsplit : (xs.drop off).map (· * f) =
        ((xs.drop off).take (v.detData det).length).map (· * f) ++
          (xs.drop (off + (v.detData det).length)).map (· * f) := by
      rw [← List.map_append]
      congr 1
      rw [← List.drop_drop]
      exact (List.take_append_drop _ _).symm
    rw [hsplit, ← List.append_assoc]

/-- C2 (confirmed): with calibration disabled or a normalized beam the
buffer passes through unchanged for any focal plane (hence any epsilon);
otherwise every sample of a matching-length buffer is scaled by exactly
`2 / (1 + epsilon)` with epsilon read from the `pol_leakage` column; and a
focal plane without that column yields epsilon zero, making the factor
exactly 2. -/
theorem c2_calibrate_signal :
    (∀ (cfg : Config) (obss : List Obs) (det : String) (normalized : Bool)
      (c : NpVal), (cfg.calibrate = false ∨ normalized = true) →
      calibrate_signal cfg obss det normalized c = .ok c) ∧
    (∀ (cfg : Config) (obs : Obs) (det : String) (ε : ℚ) (xs : List ℝ),
      cfg.calibrate = true → det ∈ obs.localDets →
      get_epsilon obs.focalplane det = .ok ε → sumN det obs.views = xs.length →
      calibrate_signal cfg [obs] det false (.arr xs) =
        .ok (.arr (xs.map (· * (2 / (1 + (ε : ℝ))))))) ∧
    (∀ (fp : Focalplane) (det : String) (props : FpRow),
      lookupRow fp det = some props → colLookup props "pol_leakage" = none →
      get_epsilon fp det = .ok 0) := by
  refine ⟨?_, ?_, ?_⟩
  · intro cfg obss det normalized c h
    rcases h with h | h <;> simp [calibrate_signal, h]
  · intro cfg obs det ε xs hc hdet hε hlen
    have h2 : calibrateGo cfg det [obs] (.arr xs) 0 =
        .ok (.arr (xs.map (· * (2 / (1 + (ε : ℝ))))), xs.length) := by
      cases hv : obs.views with
      | nil =>
        have hxs : xs = [] := List.length_eq_zero.mp (by rw [← hlen, hv]; rfl)
        simp [calibrateGo, hdet, hε, hv, hxs, sumN]
      | cons v vs =>
        have htot := calibViews_total (2 / (1 + (ε : ℝ))) det (v :: vs) xs 0
          (by rw [← hv]; simpa using hlen)
        have hsnd := calibViews_snd (2 / (1 + (ε : ℝ))) det (v :: vs) xs 0
        have hsum : sumN det (v :: vs) = xs.length := by rw [← hv]; exact hlen
        simp only [calibrateGo, if_pos hdet, hε, hv]
        simp [calibrateGo, htot, hsnd, hsum]
    simp [calibrate_signal, hc, h2, Except.map]
  · intro fp det props h hq
    simp [get_epsilon, h, hq]

/-! ## C1: the weighted strategy recombination -/

lemma except_bind_ok {α β : Type _} (a : α) (f : α → Except PyErr β) :
    (Except.ok a : Except PyErr α) >>= f = f a := rfl

lemma except_pure_eq {α : Type _} (a : α) : (pure a : Except PyErr α) = .ok a := rfl

/-- C1 (confirmed): the weighted strategy's combined signal is, sample by
sample, `conv_I + cos(2 psi_pol) * conv_Q + sin(2 psi_pol) * conv_U` over
the three engine outputs for the same pointing stream; in particular with
all-ones outputs the combined sample is 2 at `psi_pol = 0` and also 2 at
`psi_pol = pi/4`. -/
theorem c1_weighted_recombination :
    (∀ (a b u ψp : List ℝ) (i : ℕ),
      a.length = ψp.length → b.length = ψp.length → u.length = ψp.length →
      ∃ out, weightedConv (some a) (some b) (some u) ψp = .ok (.arr out) ∧
        out.length = ψp.length ∧
        (i < ψp.length → out.getD i 0 =
          a.getD i 0 + Real.cos (2 * ψp.getD i 0) * b.getD i 0 +
            Real.sin (2 * ψp.getD i 0) * u.getD i 0)) ∧
    weightedConv (some [1]) (some [1]) (some [1]) [0] = .ok (.arr [2]) ∧
    weightedConv (some [1]) (some [1]) (some [1]) [Real.pi / 4] = .ok (.arr [2]) := by
  refine ⟨?_, ?_, ?_⟩
  · intro a b u ψp i ha hb hu
    have s1 : npMul (ψp.map fun p => Real.cos (2 * p)) (NpVal.arr b) =
        .ok (.arr (List.zipWith (· * ·) (ψp.map fun p => Real.cos (2 * p)) b)) := by
      have hl : (ψp.map fun p => Real.cos (2 * p)).length = b.length := by simp [hb]
      simp [npMul, hl]
    have s2 : npAddAssign (NpVal.arr a)
        (NpVal.arr (List.zipWith (· * ·) (ψp.map fun p => Real.cos (2 * p)) b)) =
        .ok (.arr (List.zipWith (· + ·) a
          (List.zipWith (· * ·) (ψp.map fun p => Real.cos (2 * p)) b))) := by
      have hl : a.length =
          (List.zipWith (· * ·) (ψp.map fun p => Real.cos (2 * p)) b).length := by
        simp [List.length_zipWith, ha, hb]
      simp [npAddAssign, hl]
    have s3 : npMul (ψp.map fun p => Real.sin (2 * p)) (NpVal.arr u) =
        .ok (.arr (List.zipWith (· * ·) (ψp.map fun p => Real.sin (2 * p)) u)) := by
      have hl : (ψp.map fun p => Real.sin (2 * p)).length = u.length := by simp [hu]
      simp [npMul, hl]
    have s4 : npAddAssign
        (NpVal.arr (List.zipWith (· + ·) a
          (List.zipWith (· * ·) (ψp.map fun p => Real.cos (2 * p)) b)))
        (NpVal.arr (List.zipWith (· * ·) (ψp.map fun p => Real.sin (2 * p)) u)) =
        .ok (.arr (List.zipWith (· + ·)
          (List.zipWith (· + ·) a
            (List.zipWith (· * ·) (ψp.map fun p => Real.cos (2 * p)) b))
          (List.zipWith (· * ·) (ψp.map fun p => Real.sin (2 * p)) u))) := by
      have hl : (List.zipWith (· + ·) a
          (List.zipWith (· * ·) (ψp.map fun p => Real.cos (2 * p)) b)).length =
          (List.zipWith (· * ·) (ψp.map fun p => Real.sin (2 * p)) u).length := by
        simp [List.length_zipWith, ha, hb, hu]
      simp [npAddAssign, hl]
    have key : weightedConv (some a) (some b) (some u) ψp =
        .ok (.arr (List.zipWith (· + ·)
          (List.zipWith (· + ·) a
            (List.zipWith (· * ·) (ψp.map fun p => Real.cos (2 * p)) b))
          (List.zipWith (· * ·) (ψp.map fun p => Real.sin (2 * p)) u))) := by
      simp only [weightedConv, NpVal.ofOption, s1, except_bind_ok, s2, s3, s4,
        except_pure_eq]
    refine ⟨_, key, ?_, ?_⟩
    · simp [List.length_zipWith, ha, hb, hu]
    · intro hi
      have hia : i < a.length := by omega
      have hib : i < b.length := by omega
      have hiu : i < u.length := by omega
      have hout : i < (List.zipWith (· + ·)
          (List.zipWith (· + ·) a
            (List.zipWith (· * ·) (ψp.map fun p => Real.cos (2 * p)) b))
          (List.zipWith (· * ·) (ψp.map fun p => Real.sin (2 * p)) u)).length := by
        simp [List.length_zipWith, ha, hb, hu]
        omega
      rw [List.getD_eq_getElem _ _ hout, List.getD_eq_getElem _ _ hia,
        List.getD_eq_getElem _ _ hib, List.getD_eq_getElem _ _ hiu,
        List.getD_eq_getElem _ _ hi]
      simp [List.getElem_zipWith, List.getElem_map]
  · have hv : weightedConv (some [1]) (some [1]) (some [1]) [0] =
        .ok (.arr [1 + Real.cos (2 * 0) * 1 + Real.sin (2 * 0) * 1]) := rfl
    rw [hv]
    norm_num
  · have hv : weightedConv (some [1]) (some [1]) (some [1]) [Real.pi / 4] =
        .ok (.arr [1 + Real.cos (2 * (Real.pi / 4)) * 1 +
          Real.sin (2 * (Real.pi / 4)) * 1]) := rfl
    rw [hv, show (2 : ℝ) * (Real.pi / 4) = Real.pi / 2 by ring,
      Real.cos_pi_div_two, Real.sin_pi_div_two]
    norm_num

/-! ## C8 and C4: pointing-angle extraction -/

lemma pointView_ok (toA : Quat → ℝ × ℝ × ℝ) (cfg : Config) (fp : Focalplane)
    (det : String) (v : View) (e : ℝ) (he : psiPolEff cfg fp det = .ok e) :
    pointView toA cfg fp det v = .ok
      ((flagQuats cfg det v).map (fun q => (toA q).1),
       (flagQuats cfg det v).map (fun q => (toA q).2.1),
       (flagQuats cfg det v).map (fun q => (toA q).2.2 - e),
       if cfg.hasHwp then
         List.zipWith (fun p h => p + 2 * h)
           (List.replicate (flagQuats cfg det v).length e) v.hwpAngle
       else List.replicate (flagQuats cfg det v).length e) := by
  simp [pointView, he, except_bind_ok, except_pure_eq, List.map_map,
    Function.comp_def, List.length_map]

lemma zipWith_const_add (e : ℝ) (l : List ℝ) (n : ℕ) (h : l.length = n) :
    List.zipWith (fun p h' => p + 2 * h') (List.replicate n e) l =
      l.map (fun h' => e + 2 * h') := by
  subst h
  induction l with
  | nil => rfl
  | cons x xs ih => simp [List.replicate_succ, ih]

lemma pointViews_spec (toA : Quat → ℝ × ℝ × ℝ) (cfg : Config) (fp : Focalplane)
    (det : String) (vs : List View) (e : ℝ) (he : psiPolEff cfg fp det = .ok e)
    (hw : ∀ v ∈ vs, cfg.hasHwp = true →
      v.hwpAngle.length = (flagQuats cfg det v).length) :
    pointViews toA cfg fp det vs = .ok
      ((vs.map (fun v => (flagQuats cfg det v).map (fun q => (toA q).1))).flatten,
       (vs.map (fun v => (flagQuats cfg det v).map (fun q => (toA q).2.1))).flatten,
       (vs.map (fun v => (flagQuats cfg det v).map (fun q => (toA q).2.2 - e))).flatten,
       (vs.map (fun v => if cfg.hasHwp then v.hwpAngle.map (fun h => e + 2 * h)
          else List.replicate (flagQuats cfg det v).length e)).flatten) := by
  induction vs with
  | nil => simp [pointViews]
  | cons v vs ih =>
    have ihr := ih (fun t ht hh => hw t (List.mem_cons_of_mem _ ht) hh)
    by_cases hh : cfg.hasHwp = true
    · have hv := hw v (List.mem_cons_self _ _) hh
      simp only [pointViews, pointView_ok toA cfg fp det v e he, except_bind_ok,
        ihr, except_pure_eq, hh, if_pos,
        zipWith_const_add e v.hwpAngle (flagQuats cfg det v).length hv]
      simp
    · have hh' : cfg.hasHwp = false := by
        cases hcfg : cfg.hasHwp
        · rfl
        · exact absurd hcfg hh
      simp only [pointViews, pointView_ok toA cfg fp det v e he, except_bind_ok,
        ihr, except_pure_eq, hh', Bool.false_eq_true, if_false]
      simp

lemma flatten_map_replicate {α : Type _} (l : List α) (f : α → ℕ) (e : ℝ) :
    (l.map (fun x => List.replicate (f x) e)).flatten =
      List.replicate ((l.map f).sum) e := by
  induction l with
  | nil => rfl
  | cons x xs ih =>
    simp only [List.map_cons, List.flatten_cons, List.sum_cons, ih]
    rw [List.replicate_add]

/-- C8 (confirmed): `get_pointing` returns a `psi_pol` array of the same
length as `psi`; with no HWP stream it is constant at the effective
polarization angle, and with a HWP stream each sample equals the effective
angle plus exactly twice that sample's HWP angle. -/
theorem c8_psi_pol_array :
    ∀ (toA : Quat → ℝ × ℝ × ℝ) (cfg : Config) (obs : Obs) (det : String)
      (e : ℝ) (θ φ ψ ψp : List ℝ),
      det ∈ obs.localDets →
      psiPolEff cfg obs.focalplane det = .ok e →
      (∀ v ∈ obs.views, cfg.hasHwp = true →
        v.hwpAngle.length = (flagQuats cfg det v).length) →
      get_pointing toA cfg det [obs] = .ok (θ, φ, ψ, ψp) →
      ψp.length = ψ.length ∧
      (cfg.hasHwp = false → ψp = List.replicate ψ.length e) ∧
      (cfg.hasHwp = true →
        ψp = (obs.views.map (fun v => v.hwpAngle.map (fun h => e + 2 * h))).flatten) := by
  intro toA cfg obs det e θ φ ψ ψp hdet he hw hp
  have hgp : get_pointing toA cfg det [obs] = .ok
      ((obs.views.map (fun v => (flagQuats cfg det v).map (fun q => (toA q).1))).flatten,
       (obs.views.map (fun v => (flagQuats cfg det v).map (fun q => (toA q).2.1))).flatten,
       (obs.views.map (fun v => (flagQuats cfg det v).map (fun q => (toA q).2.2 - e))).flatten,
       (obs.views.map (fun v => if cfg.hasHwp then v.hwpAngle.map (fun h => e + 2 * h)
          else List.replicate (flagQuats cfg det v).length e)).flatten) := by
    simp only [get_pointing, if_pos hdet,
      pointViews_spec toA cfg obs.focalplane det obs.views e he hw,
      except_bind_ok, except_pure_eq, List.append_nil]
  rw [hgp] at hp
  simp only [Except.ok.injEq, Prod.mk.injEq] at hp
  obtain ⟨-, -, hψ, hψp⟩ := hp
  subst hψ hψp
  refine ⟨?_, ?_, ?_⟩
  · simp only [List.length_flatten, List.map_map, Function.comp_def,
      List.length_map]
    by_cases hh : cfg.hasHwp = true
    · simp only [hh, if_pos]
      congr 1
      refine List.map_congr_left ?_
      intro v hv
      simp [hw v hv hh]
    · simp [hh]
  · intro hh
    simp only [hh, Bool.false_eq_true, if_false]
    rw [flatten_map_replicate obs.views (fun v => (flagQuats cfg det v).length) e]
    congr 1
    simp [List.length_flatten, List.map_map, Function.comp_def, List.length_map]
  · intro hh
    simp [hh]

lemma getD_map' {α β : Type _} (f : α → β) (d : β) (da : α) :
    ∀ (l : List α) (i : ℕ), i < l.length → (l.map f).getD i d = f (l.getD i da)
  | _ :: _, 0, _ => rfl
  | _ :: xs, i + 1, h => getD_map' f d da xs i (by simpa using h)

lemma getD_zipWith' {α β γ : Type _} (f : α → β → γ) (d : γ) (da : α) (db : β) :
    ∀ (l : List α) (l' : List β) (i : ℕ), i < l.length → i < l'.length →
      (List.zipWith f l l').getD i d = f (l.getD i da) (l'.getD i db)
  | _ :: _, _ :: _, 0, _, _ => rfl
  | _ :: as, _ :: bs, i + 1, h, h' =>
    getD_zipWith' f d da db as bs i (by simpa using h) (by simpa using h')

/-- C4 (confirmed): with flag application enabled and both flag streams
configured, the combined per-sample mask is
`(shared AND shared_mask) OR (det AND det_mask)`; at every sample whose
combined mask is nonzero the returned θ and φ are exactly the conversion
of the fixed null orientation and ψ is that conversion's position angle
minus the (uniformly subtracted) effective polarization angle — hence
independent of the sample's original quaternion — and all four output
arrays keep the input sample count (flagged samples are nulled, never
dropped). -/
theorem c4_flag_nulling :
    ∀ (toA : Quat → ℝ × ℝ × ℝ) (cfg : Config) (fp : Focalplane) (det : String)
      (v : View) (e : ℝ) (i : ℕ),
      cfg.applyFlags = true → cfg.hasSharedFlags = true → cfg.hasDetFlags = true →
      v.sharedFlags.length = (v.quats det).length →
      (v.detFlags det).length = (v.quats det).length →
      (cfg.hasHwp = true → v.hwpAngle.length = (v.quats det).length) →
      psiPolEff cfg fp det = .ok e →
      i < (v.quats det).length →
      (v.sharedFlags.getD i 0 &&& cfg.sharedFlagMask) |||
        ((v.detFlags det).getD i 0 &&& cfg.detFlagMask) ≠ 0 →
      ∃ θ φ ψ ψp, pointView toA cfg fp det v = .ok (θ, φ, ψ, ψp) ∧
        combinedFlags cfg det v = some (List.zipWith
          (fun a b => (a &&& cfg.sharedFlagMask) ||| (b &&& cfg.detFlagMask))
          v.sharedFlags (v.detFlags det)) ∧
        θ.length = (v.quats det).length ∧ φ.length = (v.quats det).length ∧
        ψ.length = (v.quats det).length ∧ ψp.length = (v.quats det).length ∧
        θ.getD i 0 = (toA nullquat).1 ∧ φ.getD i 0 = (toA nullquat).2.1 ∧
        ψ.getD i 0 = (toA nullquat).2.2 - e := by
  intro toA cfg fp det v e i h1 h2 h3 hls hld hlh he hi hmask
  have hcf : combinedFlags cfg det v =
      some (List.zipWith (fun a b => (a &&& cfg.sharedFlagMask) |||
        (b &&& cfg.detFlagMask)) v.sharedFlags (v.detFlags det)) := by
    simp [combinedFlags, h1, h2, h3, List.zipWith_map]
  have hfl_len : (List.zipWith (fun a b => (a &&& cfg.sharedFlagMask) |||
      (b &&& cfg.detFlagMask)) v.sharedFlags (v.detFlags det)).length =
      (v.quats det).length := by
    simp [List.length_zipWith, hls, hld]
  have hfq : flagQuats cfg det v = List.zipWith (fun q f => if f ≠ 0 then nullquat else q)
      (v.quats det) (List.zipWith (fun a b => (a &&& cfg.sharedFlagMask) |||
        (b &&& cfg.detFlagMask)) v.sharedFlags (v.detFlags det)) := by
    simp [flagQuats, hcf]
  have hfq_len : (flagQuats cfg det v).length = (v.quats det).length := by
    rw [hfq]
    simp [List.length_zipWith, hfl_len]
  have hif : i < (flagQuats cfg det v).length := by omega
  have hfl_i : (List.zipWith (fun a b => (a &&& cfg.sharedFlagMask) |||
      (b &&& cfg.detFlagMask)) v.sharedFlags (v.detFlags det)).getD i 0 =
      (v.sharedFlags.getD i 0 &&& cfg.sharedFlagMask) |||
        ((v.detFlags det).getD i 0 &&& cfg.detFlagMask) :=
    getD_zipWith' _ 0 0 0 _ _ i (by omega) (by omega)
  have hfq_i : (flagQuats cfg det v).getD i nullquat = nullquat := by
    rw [hfq, getD_zipWith' _ nullquat nullquat 0 _ _ i (by omega) (by omega),
      hfl_i, if_pos hmask]
  refine ⟨_, _, _, _, pointView_ok toA cfg fp det v e he, hcf, ?_, ?_, ?_, ?_,
    ?_, ?_, ?_⟩
  · simp [List.length_map, hfq_len]
  · simp [List.length_map, hfq_len]
  · simp [List.length_map, hfq_len]
  · by_cases hh : cfg.hasHwp = true
    · simp only [hh, if_pos]
      simp [List.length_zipWith, List.length_replicate, List.length_map,
        hfq_len, hlh hh]
    · simp only [hh, Bool.false_eq_true, if_false]
      simp [List.length_replicate, List.length_map, hfq_len]
  · rw [getD_map' _ 0 nullquat _ i hif, hfq_i]
  · rw [getD_map' _ 0 nullquat _ i hif, hfq_i]
  · rw [getD_map' _ 0 nullquat _ i hif, hfq_i]

/-! ## C9: zero-interval detectors are a pipeline no-op -/

lemma get_pointing_zero (toA : Quat → ℝ × ℝ × ℝ) (cfg : Config) (det : String) :
    ∀ (obss : List Obs),
      (∀ obs ∈ obss, det ∉ obs.localDets ∨ obs.views = []) →
      get_pointing toA cfg det obss = .ok ([], [], [], [])
  | [], _ => rfl
  | obs :: rest, h => by
    have hr := get_pointing_zero toA cfg det rest
      (fun o ho => h o (List.mem_cons_of_mem _ ho))
    by_cases hd : det ∈ obs.localDets
    · have hv : obs.views = [] := by
        rcases h obs (List.mem_cons_self _ _) with h' | h'
        exacts [absurd hd h', h']
      simp [get_pointing, hd, hv, pointViews, hr, except_bind_ok, except_pure_eq]
    · simp [get_pointing, hd, hr]

lemma get_epsilon_ok {fp : Focalplane} {det : String}
    (h : (lookupRow fp det).isSome = true) : ∃ ε, get_epsilon fp det = .ok ε := by
  cases hlk : lookupRow fp det with
  | none => rw [hlk] at h; cases h
  | some props =>
    cases hc : colLookup props "pol_leakage" with
    | none => exact ⟨0, by simp [get_epsilon, hlk, hc]⟩
    | some q => exact ⟨q.val, by simp [get_epsilon, hlk, hc]⟩

lemma calibrateGo_zero (cfg : Config) (det : String) :
    ∀ (obss : List Obs) (c : NpVal) (off : ℕ),
      (∀ obs ∈ obss, det ∉ obs.localDets ∨ obs.views = []) →
      (∀ obs ∈ obss, det ∈ obs.localDets →
        (lookupRow obs.focalplane det).isSome = true) →
      calibrateGo cfg det obss c off = .ok (c, off)
  | [], _, _, _, _ => rfl
  | obs :: rest, c, off, h, hfp => by
    have hr := calibrateGo_zero cfg det rest c off
      (fun o ho => h o (List.mem_cons_of_mem _ ho))
      (fun o ho => hfp o (List.mem_cons_of_mem _ ho))
    by_cases hd : det ∈ obs.localDets
    · have hv : obs.views = [] := by
        rcases h obs (List.mem_cons_self _ _) with h' | h'
        exacts [absurd hd h', h']
      obtain ⟨ε, hε⟩ := get_epsilon_ok (hfp obs (List.mem_cons_self _ _) hd)
      simp [calibrateGo, hd, hε, hv, hr]
    · simp [calibrateGo, hd, hr]

lemma calibrate_signal_zero (cfg : Config) (obss : List Obs) (det : String)
    (normalized : Bool) (c : NpVal)
    (h : ∀ obs ∈ obss, det ∉ obs.localDets ∨ obs.views = [])
    (hfp : ∀ obs ∈ obss, det ∈ obs.localDets →
      (lookupRow obs.focalplane det).isSome = true) :
    calibrate_signal cfg obss det normalized c = .ok c := by
  by_cases hb : (!cfg.calibrate || normalized) = true
  · simp [calibrate_signal, hb]
  · simp [calibrate_signal, hb, calibrateGo_zero cfg det obss c 0 h hfp, Except.map]

lemma detSegments_zero (det : String) :
    ∀ (obss : List Obs),
      (∀ obs ∈ obss, det ∉ obs.localDets ∨ obs.views = []) →
      detSegments det obss = []
  | [], _ => rfl
  | obs :: rest, h => by
    have hr := detSegments_zero det rest (fun o ho => h o (List.mem_cons_of_mem _ ho))
    simp only [detSegments] at hr ⊢
    by_cases hd : det ∈ obs.localDets
    · have hv : obs.views = [] := by
        rcases h obs (List.mem_cons_self _ _) with h' | h'
        exacts [absurd hd h', h']
      simp [List.filter_cons, hd, hv, hr]
    · simp [List.filter_cons, hd, hr]

lemma save_zero (det : String) (obss : List Obs) (c : NpVal)
    (h : ∀ obs ∈ obss, det ∉ obs.localDets ∨ obs.views = []) :
    save det obss c = .ok [] := by
  have hseg := detSegments_zero det obss h
  cases c <;> simp [save, hseg]

/-- C9 (confirmed): a detector hosted in zero intervals locally yields
zero-length angle arrays from `get_pointing`, and both the static and the
weighted per-detector pipeline complete on that zero-length input without
raising: the packed buffer is empty, the convolution extraction returns
`None`, the weighted recombination of three `None` results over an empty
weight array is an empty array (numpy's empty object-dtype arithmetic),
calibration and accumulation touch no storage. -/
theorem c9_zero_interval_noop :
    ∀ (toA : Quat → ℝ × ℝ × ℝ) (engI engQ engU : List (ℝ × ℝ × ℝ) → List ℝ)
      (cfg : Config) (obss : List Obs) (det : String) (normalized : Bool),
      (∀ obs ∈ obss, det ∉ obs.localDets ∨ obs.views = []) →
      (∀ obs ∈ obss, det ∈ obs.localDets →
        (lookupRow obs.focalplane det).isSome = true) →
      get_pointing toA cfg det obss = .ok ([], [], [], []) ∧
      convolve engI (get_buffer [] [] []) = none ∧
      weightedConv none none none [] = .ok (.arr []) ∧
      staticPipeline toA engI cfg obss det normalized = .ok [] ∧
      weightedPipeline toA engI engQ engU cfg obss det normalized = .ok [] := by
  intro toA engI engQ engU cfg obss det normalized h hfp
  have hgp := get_pointing_zero toA cfg det obss h
  refine ⟨hgp, rfl, rfl, ?_, ?_⟩
  · simp only [staticPipeline, hgp, except_bind_ok]
    rw [show NpVal.ofOption (convolve engI (get_buffer [] [] [])) = NpVal.pyNone
      from rfl]
    rw [calibrate_signal_zero cfg obss det normalized NpVal.pyNone h hfp,
      except_bind_ok]
    exact save_zero det obss _ h
  · simp only [weightedPipeline, hgp, except_bind_ok]
    rw [show weightedConv (convolve engI (get_buffer [] [] []))
        (convolve engQ (get_buffer [] [] []))
        (convolve engU (get_buffer [] [] [])) [] = Except.ok (NpVal.arr [])
      from rfl, except_bind_ok]
    rw [calibrate_signal_zero cfg obss det normalized (NpVal.arr []) h hfp,
      except_bind_ok]
    exact save_zero det obss _ h

/-! ## Concrete fixtures and witnesses -/

/-- A focal plane with one detector carrying `psi_pol` and `pol_angle`. -/
def fpW : Focalplane :=
  [("det0", [("psi_pol", Qty.mk 0 1), ("pol_angle", Qty.mk 0 1)])]

/-- A configuration applying both flag streams, `dxx = false`, no HWP. -/
def cfgW4 : Config :=
  { applyFlags := true, hasSharedFlags := true, sharedFlagMask := 1,
    hasDetFlags := true, detFlagMask := 1, dxx := false, hasHwp := false,
    calibrate := true }

/-- The effective polarization angle of `fpW`'s detector. -/
noncomputable def eW : ℝ := ((Qty.mk 0 1).toRad : ℝ)

/-- One-sample view whose shared flag marks the sample. -/
def viewW4 : View :=
  { sharedFlags := [1], detFlags := fun _ => [0], quats := fun _ => [Quat.mk 1 0 0 0],
    hwpAngle := [], detData := fun _ => [0] }

/-- One-sample view with clear flags. -/
def viewW8 : View :=
  { sharedFlags := [0], detFlags := fun _ => [0], quats := fun _ => [nullquat],
    hwpAngle := [], detData := fun _ => [0] }

/-- Observation hosting `viewW8` for detector `det0`. -/
def obsW8 : Obs := { localDets := ["det0"], focalplane := fpW, views := [viewW8] }

/-- Observation hosting `det0` in zero views. -/
def obsW9 : Obs := { localDets := ["det0"], focalplane := fpW, views := [] }

/-- Witness for C4 at a one-sample view whose combined mask is 1. -/
theorem c4_flag_nulling_witness :
    ∃ θ φ ψ ψp, pointView (fun q => (q.x, q.y, q.z)) cfgW4 fpW "det0" viewW4 =
        .ok (θ, φ, ψ, ψp) ∧
      combinedFlags cfgW4 "det0" viewW4 = some (List.zipWith
        (fun a b => (a &&& cfgW4.sharedFlagMask) ||| (b &&& cfgW4.detFlagMask))
        viewW4.sharedFlags (viewW4.detFlags "det0")) ∧
      θ.length = (viewW4.quats "det0").length ∧
      φ.length = (viewW4.quats "det0").length ∧
      ψ.length = (viewW4.quats "det0").length ∧
      ψp.length = (viewW4.quats "det0").length ∧
      θ.getD 0 0 = nullquat.x ∧ φ.getD 0 0 = nullquat.y ∧
      ψ.getD 0 0 = nullquat.z - eW :=
  c4_flag_nulling (fun q => (q.x, q.y, q.z)) cfgW4 fpW "det0" viewW4 eW 0
    rfl rfl rfl rfl rfl (by intro h; exact absurd h (by decide)) rfl (by decide)
    (by decide)

/-- Witness for C8 at a one-sample unflagged view without HWP stream. -/
theorem c8_psi_pol_array_witness :
    ([eW] : List ℝ).length = ([nullquat.z - eW] : List ℝ).length ∧
    (cfgW4.hasHwp = false →
      [eW] = List.replicate ([nullquat.z - eW] : List ℝ).length eW) ∧
    (cfgW4.hasHwp = true →
      [eW] = (obsW8.views.map
        (fun v => v.hwpAngle.map (fun h => eW + 2 * h))).flatten) :=
  c8_psi_pol_array (fun q => (q.x, q.y, q.z)) cfgW4 obsW8 "det0" eW
    [nullquat.x] [nullquat.y] [nullquat.z - eW] [eW]
    (by decide) rfl (by intro v hv h; exact absurd h (by decide)) rfl

/-- Witness for C9 at a one-observation dataset with zero views. -/
theorem c9_zero_interval_noop_witness :
    get_pointing (fun q => (q.x, q.y, q.z)) cfgW4 "det0" [obsW9] =
      .ok ([], [], [], []) ∧
    convolve (fun _ => []) (get_buffer [] [] []) = none ∧
    weightedConv none none none [] = .ok (.arr []) ∧
    staticPipeline (fun q => (q.x, q.y, q.z)) (fun _ => []) cfgW4 [obsW9]
      "det0" false = .ok [] ∧
    weightedPipeline (fun q => (q.x, q.y, q.z)) (fun _ => []) (fun _ => [])
      (fun _ => []) cfgW4 [obsW9] "det0" false = .ok [] :=
  c9_zero_interval_noop (fun q => (q.x, q.y, q.z)) (fun _ => []) (fun _ => [])
    (fun _ => []) cfgW4 [obsW9] "det0" false
    (by intro o ho; rw [List.mem_singleton] at ho; subst ho; exact Or.inr rfl)
    (by intro o ho hd; rw [List.mem_singleton] at ho; subst ho; rfl)
